import Mathlib

/-
Shallow embedding of the gMap Ember service from
addon/services/g-map.js of ember-cli-g-maps.

The service keeps a registry of named Google Map instances (the inner
`maps` object with select / add / remove / refresh / list), service-level
wrappers addMap / removeMap / removeAll / selectMap / refreshMap together
with a module-level auto-naming counter `mapIter`, and a queue of pending
geocode requests settled by an injected provider callback.

JavaScript values relevant to the control flow (truthiness checks,
`typeof name !== 'string'`, `x instanceof google.maps.Map`) are modelled
by the small inductive type `JSVal`; object identity of map instances is
modelled by a numeric id.
-/

namespace GMapSvc

/-- Model of the JavaScript values flowing through the service: undefined,
null, strings, Google Map instances (identified by a numeric id) and other
objects (identified by a numeric id). -/
inductive JSVal where
  | undef
  | null
  | str (s : String)
  | mapObj (id : Nat)
  | obj (id : Nat)
deriving DecidableEq, Repr

/-- JavaScript truthiness of a modelled value: undefined and null are
falsy, a string is truthy iff it is non-empty, objects are truthy. -/
def JSVal.truthy : JSVal → Bool
  | .undef => false
  | .null => false
  | .str s => s ≠ ""
  | .mapObj _ => true
  | .obj _ => true

/-- Model of the JavaScript test `typeof v === 'string'`. -/
def JSVal.isStr : JSVal → Bool
  | .str _ => true
  | _ => false

/-- Model of the JavaScript test `v instanceof google.maps.Map`. -/
def JSVal.isMapObj : JSVal → Bool
  | .mapObj _ => true
  | _ => false

/-- A record of the registry: the `mapItem` object `{ name, map }` pushed
by `maps.add`. -/
structure MapItem where
  name : JSVal
  map : JSVal
deriving DecidableEq, Repr

namespace Maps

/-- `maps.select(name)`: linear scan returning the first record whose
`name` field is identical (`===`) to the argument, or undefined (`none`). -/
def select : List MapItem → JSVal → Option MapItem
  | [], _ => none
  | r :: rest, name => if r.name = name then some r else select rest name

/-- `maps.add(name, map)`: throws when `name` is not a string, when `map`
is not a Google Map instance, or when `select(name)` is truthy (the name
is taken); otherwise pushes `{ name, map }` and returns it. The returned
pair carries the error or the new record, together with the registry
afterwards (unchanged on a throw). -/
def add (l : List MapItem) (name map : JSVal) : Except String MapItem × List MapItem :=
  if ¬ name.isStr then
    (.error "GMap name must be a string", l)
  else if ¬ map.isMapObj then
    (.error "GMap service only accepts Google Map instances", l)
  else if (select l name).isSome then
    (.error "GMap name is taken, select a new GMap name", l)
  else
    let mapItem : MapItem := ⟨name, map⟩
    (.ok mapItem, l ++ [mapItem])

/-- `maps.remove(name)`: removes the first record whose `name` field
matches and reports whether one was found. -/
def remove : List MapItem → JSVal → Bool × List MapItem
  | [], _ => (false, [])
  | r :: rest, name =>
    if r.name = name then (true, rest)
    else
      let res := remove rest name
      (res.1, r :: res.2)

/-- Outcome of `maps.refresh`: the returned boolean, whether the warning
was logged, and the handle on which the resize event was triggered. -/
structure RefreshOut where
  isSuccessful : Bool
  warned : Bool
  resized : Option JSVal
deriving DecidableEq, Repr

/-- `maps.refresh(name)`: on a miss logs a warning and returns false; on a
hit triggers resize on the stored map handle and returns true. -/
def refresh (l : List MapItem) (name : JSVal) : RefreshOut :=
  match select l name with
  | none => ⟨false, true, none⟩
  | some mapStore => ⟨true, false, some mapStore.map⟩

/-- `maps.list()`: the `name` fields of all records, in storage order. -/
def list (l : List MapItem) : List JSVal :=
  l.map (·.name)

end Maps

/-- Digit character used by JavaScript `Number.prototype.toString(36)`:
0-9 then lowercase a-z. -/
def base36Char (d : Nat) : Char :=
  if d < 10 then Char.ofNat (48 + d) else Char.ofNat (87 + d)

/-- Fuel-driven base-36 digit expansion (most significant digit first). -/
def toBase36Aux : Nat → Nat → List Char
  | 0, _ => []
  | fuel + 1, n =>
    if n < 36 then [base36Char n]
    else toBase36Aux fuel (n / 36) ++ [base36Char (n % 36)]

/-- Model of JavaScript `n.toString(36)` for a natural number. -/
def toBase36 (n : Nat) : String :=
  ⟨toBase36Aux (n + 1) n⟩

/-- State of the service: the registry held by the `maps` object and the
module-level counter `mapIter`. -/
structure Service where
  maps : List MapItem
  mapIter : Nat
deriving DecidableEq, Repr

/-- The service as created: empty registry, counter at 0. -/
def Service.initial : Service := ⟨[], 0⟩

/-- Argument normalization of `addMap` after the counter bump: when the
first argument is itself a Google Map instance it becomes the map and the
name is generated as `map-` followed by the incremented counter in base
36; otherwise both arguments pass through. -/
def addMapArgs (st : Service) (name map : JSVal) : JSVal × JSVal :=
  match name with
  | .mapObj id => (.str ("map-" ++ toBase36 (st.mapIter + 1)), .mapObj id)
  | _ => (name, map)

/-- `addMap(name, map)`: always increments `mapIter` first, normalizes the
arguments, then delegates to `maps.add`. -/
def addMap (st : Service) (name map : JSVal) : Except String MapItem × Service :=
  let iter := st.mapIter + 1
  let args := addMapArgs st name map
  let res := Maps.add st.maps args.1 args.2
  (res.1, ⟨res.2, iter⟩)

/-- `removeMap(name)`: delegates to `maps.remove`. -/
def removeMap (st : Service) (name : String) : Bool × Service :=
  let res := Maps.remove st.maps (.str name)
  (res.1, ⟨res.2, st.mapIter⟩)

/-- `removeAll()`: walks the name list backwards removing each name, then
re-reads the list, stores its length into `mapIter` and returns whether
the registry ended empty. -/
def removeAll (st : Service) : Bool × Service :=
  let names := Maps.list st.maps
  let l := names.reverse.foldl (fun acc n => (Maps.remove acc n).2) st.maps
  let names2 := Maps.list l
  (names2.length = 0, ⟨l, names2.length⟩)

/-- `selectMap(name)`: looks the record up; when the record and its `map`
field are both truthy returns the map handle, otherwise null. -/
def selectMap (st : Service) (name : String) : JSVal :=
  match Maps.select st.maps (.str name) with
  | some result => if result.map.truthy then result.map else .null
  | none => .null

/-- `refreshMap(name)`: delegates to `maps.refresh`. -/
def refreshMap (st : Service) (name : String) : Maps.RefreshOut :=
  Maps.refresh st.maps (.str name)

/-- `list()`: delegates to `maps.list`. -/
def listNames (st : Service) : List JSVal :=
  Maps.list st.maps

/-- Service states reachable through the public operations from the
freshly created service. -/
inductive Reachable : Service → Prop
  | start : Reachable Service.initial
  | stepAdd (st : Service) (name map : JSVal) :
      Reachable st → Reachable (addMap st name map).2
  | stepRemove (st : Service) (name : String) :
      Reachable st → Reachable (removeMap st name).2
  | stepRemoveAll (st : Service) :
      Reachable st → Reachable (removeAll st).2

/-- Well-formedness of a stored record: its name is a string and its map
field is a Google Map instance. -/
def MapItem.WF (r : MapItem) : Prop :=
  (∃ s, r.name = JSVal.str s) ∧ (∃ id, r.map = JSVal.mapObj id)

/-- Registry invariant: every stored record is well-formed. -/
def Inv (st : Service) : Prop :=
  ∀ r ∈ st.maps, r.WF

section Geocode

/-- Model of the provider result object handed to the geocode callback:
possibly absent (null), carrying an optional `error_message` field and an
opaque payload identity. -/
structure GeoResult where
  error_message : Option String
  payload : Nat
deriving DecidableEq, Repr

/-- The error object built on a non-OK status: `{ status }` plus a
`message` field copied from the result when available. -/
structure GeoError where
  status : String
  message : Option String
deriving DecidableEq, Repr

/-- Truthiness of the `result && result.error_message` test: the result is
present and its `error_message` field holds a non-empty string. -/
def errorMessageTruthy (result : Option GeoResult) : Bool :=
  match result with
  | some r =>
    match r.error_message with
    | some s => s ≠ ""
    | none => false
  | none => false

/-- The `options.callback` closure installed by `geocode`: status OK or
ZERO_RESULTS resolves with the result; any other status rejects with
`{ status }`, adding `message` when `result && result.error_message`. -/
def geocodeCallback (result : Option GeoResult) (status : String) :
    Except GeoError (Option GeoResult) :=
  if status = "OK" ∨ status = "ZERO_RESULTS" then
    .ok result
  else
    let err : GeoError :=
      if errorMessageTruthy result then
        ⟨status, (result.bind (·.error_message))⟩
      else
        ⟨status, none⟩
    .error err

/-- Model of JavaScript `Array.prototype.indexOf` on the queue of request
identities: index of the first occurrence, or -1. -/
def jsIndexOf : List Nat → Nat → Int
  | [], _ => -1
  | x :: rest, r =>
    if x = r then 0
    else if jsIndexOf rest r < 0 then -1 else jsIndexOf rest r + 1

/-- Model of `queue.splice(i, 1)`: a negative index counts from the end
(clamped at 0), a too-large index is clamped to the length; one element is
removed at the resulting position when it exists. -/
def spliceRemoveOne (q : List Nat) (i : Int) : List Nat :=
  let s : Nat := if i < 0 then ((q.length : Int) + i).toNat else min i.toNat q.length
  q.take s ++ q.drop (s + 1)

/-- The queue bookkeeping of the settlement callback:
`queue.splice(queue.indexOf(request), 1)`. -/
def settleRemove (q : List Nat) (r : Nat) : List Nat :=
  spliceRemoveOne q (jsIndexOf q r)

/-- `geocode` pushes the freshly created request onto the queue. -/
def geocodePush (q : List Nat) (r : Nat) : List Nat :=
  q ++ [r]

end Geocode

/-! Basic lemmas about the registry operations. -/

namespace Maps

theorem select_eq_some (l : List MapItem) (v : JSVal) (r : MapItem)
    (h : select l v = some r) : r ∈ l ∧ r.name = v := by
  induction l with
  | nil => simp [select] at h
  | cons a rest ih =>
    by_cases hv : a.name = v
    · simp only [select, if_pos hv, Option.some.injEq] at h
      subst h
      exact ⟨List.mem_cons_self a rest, hv⟩
    · simp only [select, if_neg hv] at h
      obtain ⟨hm, hn⟩ := ih h
      exact ⟨List.mem_cons_of_mem a hm, hn⟩

theorem select_isSome_iff (l : List MapItem) (v : JSVal) :
    (select l v).isSome ↔ v ∈ l.map (·.name) := by
  induction l with
  | nil => simp [select]
  | cons a rest ih =>
    by_cases hv : a.name = v
    · simp [select, hv]
    · simp only [select, if_neg hv, List.map_cons, List.mem_cons, ih]
      constructor
      · exact fun h => Or.inr h
      · rintro (h | h)
        · exact absurd h.symm hv
        · exact h

theorem select_eq_none_iff (l : List MapItem) (v : JSVal) :
    select l v = none ↔ v ∉ l.map (·.name) := by
  rw [← select_isSome_iff]
  cases select l v <;> simp

theorem add_of_fresh (l : List MapItem) (s : String) (id : Nat)
    (h : select l (.str s) = none) :
    add l (.str s) (.mapObj id) =
      (.ok ⟨.str s, .mapObj id⟩, l ++ [⟨.str s, .mapObj id⟩]) := by
  simp [add, JSVal.isStr, JSVal.isMapObj, h]

theorem add_error_of_taken (l : List MapItem) (name map : JSVal)
    (h : (select l name).isSome) :
    (∃ e, (add l name map).1 = .error e) ∧ (add l name map).2 = l := by
  unfold add
  split_ifs
  all_goals exact ⟨⟨_, rfl⟩, rfl⟩

theorem add_mem (l : List MapItem) (name map : JSVal) (r : MapItem)
    (h : r ∈ (add l name map).2) :
    r ∈ l ∨ (r = ⟨name, map⟩ ∧ name.isStr ∧ map.isMapObj) := by
  unfold add at h
  by_cases h1 : name.isStr
  · by_cases h2 : map.isMapObj
    · by_cases h3 : (select l name).isSome
      · simp [h1, h2, h3] at h
        exact Or.inl h
      · simp [h1, h2, h3] at h
        rcases h with hm | hm
        · exact Or.inl hm
        · exact Or.inr ⟨hm, h1, h2⟩
    · simp [h1, h2] at h
      exact Or.inl h
  · simp [h1] at h
    exact Or.inl h

theorem remove_names (l : List MapItem) (v : JSVal) :
    (remove l v).2.map (·.name) = (l.map (·.name)).erase v := by
  induction l with
  | nil => simp [remove]
  | cons a rest ih =>
    by_cases hv : a.name = v
    · simp only [remove, if_pos hv, List.map_cons, hv]
      exact (List.erase_cons_head v (rest.map (·.name))).symm
    · simp only [remove, if_neg hv, List.map_cons, ih]
      rw [List.erase_cons_tail]
      simp [hv]

theorem remove_fst_iff (l : List MapItem) (v : JSVal) :
    (remove l v).1 = true ↔ v ∈ l.map (·.name) := by
  induction l with
  | nil => simp [remove]
  | cons a rest ih =>
    by_cases hv : a.name = v
    · simp [remove, hv]
    · simp only [remove, if_neg hv, List.map_cons, List.mem_cons, ih]
      constructor
      · exact fun h => Or.inr h
      · rintro (h | h)
        · exact absurd h.symm hv
        · exact h

theorem remove_mem (l : List MapItem) (v : JSVal) (r : MapItem)
    (h : r ∈ (remove l v).2) : r ∈ l := by
  induction l with
  | nil => simp [remove] at h
  | cons a rest ih =>
    by_cases hv : a.name = v
    · simp only [remove, if_pos hv] at h
      exact List.mem_cons_of_mem a h
    · simp only [remove, if_neg hv, List.mem_cons] at h
      rcases h with h | h
      · exact h ▸ List.mem_cons_self a rest
      · exact List.mem_cons_of_mem a (ih h)

theorem select_append_of_none (l l2 : List MapItem) (v : JSVal)
    (h : select l v = none) : select (l ++ l2) v = select l2 v := by
  induction l with
  | nil => simp
  | cons a rest ih =>
    by_cases hv : a.name = v
    · simp [select, hv] at h
    · simp only [select, if_neg hv] at h
      simpa only [List.cons_append, select, if_neg hv] using ih h

end Maps

theorem str_injective : Function.Injective JSVal.str := by
  intro a b h
  cases h
  rfl

/-! The backwards removal loop of removeAll empties any registry: at each
step the multiset of names still to process matches the multiset of names
still stored. -/

theorem foldRemove_eq_nil (ns : List JSVal) :
    ∀ l : List MapItem, List.Perm (l.map (·.name)) ns →
      ns.foldl (fun acc n => (Maps.remove acc n).2) l = [] := by
  induction ns with
  | nil =>
    intro l h
    simpa using List.map_eq_nil_iff.mp h.eq_nil
  | cons n ns ih =>
    intro l h
    have hstep : List.Perm ((Maps.remove l n).2.map (·.name)) ns := by
      rw [Maps.remove_names]
      have := h.erase n
      rwa [List.erase_cons_head] at this
    simpa using ih (Maps.remove l n).2 hstep

theorem removeAll_eq (st : Service) : removeAll st = (true, ⟨[], 0⟩) := by
  have h : List.foldr (fun x y => (Maps.remove y x).2) st.maps
      (List.map (fun x => x.name) st.maps) = [] := by
    rw [← List.foldl_reverse]
    exact foldRemove_eq_nil _ _ ((st.maps.map (·.name)).reverse_perm).symm
  simp [removeAll, Maps.list, h]

/-! Preservation of the registry invariant by every public operation. -/

theorem wf_of_checks (name map : JSVal) (h1 : name.isStr = true)
    (h2 : map.isMapObj = true) : MapItem.WF ⟨name, map⟩ := by
  refine ⟨?_, ?_⟩
  · cases name with
    | str s => exact ⟨s, rfl⟩
    | undef => simp [JSVal.isStr] at h1
    | null => simp [JSVal.isStr] at h1
    | mapObj id => simp [JSVal.isStr] at h1
    | obj id => simp [JSVal.isStr] at h1
  · cases map with
    | mapObj id => exact ⟨id, rfl⟩
    | undef => simp [JSVal.isMapObj] at h2
    | null => simp [JSVal.isMapObj] at h2
    | str s => simp [JSVal.isMapObj] at h2
    | obj id => simp [JSVal.isMapObj] at h2

theorem inv_addMap (st : Service) (name map : JSVal) (h : Inv st) :
    Inv (addMap st name map).2 := by
  intro r hr
  have hr2 : r ∈ (Maps.add st.maps (addMapArgs st name map).1
      (addMapArgs st name map).2).2 := hr
  rcases Maps.add_mem _ _ _ r hr2 with hm | ⟨hrq, hstr, hmap⟩
  · exact h r hm
  · subst hrq
    exact wf_of_checks _ _ hstr hmap

theorem inv_removeMap (st : Service) (name : String) (h : Inv st) :
    Inv (removeMap st name).2 := by
  intro r hr
  exact h r (Maps.remove_mem _ _ _ hr)

/-! Lemmas about the geocode queue bookkeeping. -/

theorem jsIndexOf_nonneg (q : List Nat) (r : Nat) (h : r ∈ q) :
    0 ≤ jsIndexOf q r := by
  induction q with
  | nil => simp at h
  | cons x t ih =>
    by_cases hx : x = r
    · simp [jsIndexOf, hx]
    · rcases List.mem_cons.mp h with h1 | h1
      · exact absurd h1.symm hx
      · have hj := ih h1
        unfold jsIndexOf
        rw [if_neg hx, if_neg (by omega)]
        omega

theorem splice_cons (x : Nat) (t : List Nat) (j : Int) (hj : 0 ≤ j) :
    spliceRemoveOne (x :: t) (j + 1) = x :: spliceRemoveOne t j := by
  unfold spliceRemoveOne
  rw [if_neg (by omega), if_neg (by omega)]
  have h3 : min (j + 1).toNat (x :: t).length = min j.toNat t.length + 1 := by
    simp only [List.length_cons]
    omega
  rw [h3]
  simp [List.take_succ_cons, List.drop_succ_cons]

theorem settleRemove_of_mem (q : List Nat) (r : Nat) (h : r ∈ q) :
    settleRemove q r = q.erase r := by
  induction q with
  | nil => simp at h
  | cons x t ih =>
    by_cases hx : x = r
    · subst hx
      unfold settleRemove jsIndexOf spliceRemoveOne
      simp [List.erase_cons_head]
    · have ht : r ∈ t := by
        rcases List.mem_cons.mp h with h1 | h1
        · exact absurd h1.symm hx
        · exact h1
      have hj := jsIndexOf_nonneg t r ht
      have hidx : jsIndexOf (x :: t) r = jsIndexOf t r + 1 := by
        simp only [jsIndexOf]
        rw [if_neg hx, if_neg (by omega)]
      have herase : (x :: t).erase r = x :: t.erase r := by
        rw [List.erase_cons_tail]
        simp [hx]
      unfold settleRemove
      rw [hidx, splice_cons x t _ hj, herase]
      exact congrArg (x :: ·) (ih ht)

theorem inv_of_reachable (st : Service) (h : Reachable st) : Inv st := by
  induction h with
  | start => intro r hr; simp [Service.initial] at hr
  | stepAdd st name map _ ih => exact inv_addMap st name map ih
  | stepRemove st name _ ih => exact inv_removeMap st name ih
  | stepRemoveAll st _ _ =>
    intro r hr
    rw [removeAll_eq] at hr
    simp at hr

/-! Refinement between the code-level registry and the name list described
by the spec, over sequences of successful add and remove operations. -/

/-- A registry operation of the refinement: adding a string name with a
Google Map instance, or removing a name. -/
inductive MOp where
  | madd (name : String) (id : Nat)
  | mremove (name : String)
deriving DecidableEq, Repr

/-- One step of the code-level registry; `none` when the operation fails
(duplicate name on add, missing name on remove), so that a `some` run is
exactly a sequence of successful operations. -/
def codeStep (l : List MapItem) : MOp → Option (List MapItem)
  | .madd n id =>
    if (Maps.add l (.str n) (.mapObj id)).1.isOk then
      some (Maps.add l (.str n) (.mapObj id)).2
    else none
  | .mremove n =>
    if (Maps.remove l (.str n)).1 then some (Maps.remove l (.str n)).2
    else none

/-- Run of the code-level registry from the empty store. -/
def codeRun (ops : List MOp) : Option (List MapItem) :=
  List.foldlM codeStep [] ops

/-- Specification-level registry, following the words of the spec: the
state is the list of registered names; a successful add appends the new
name (insertion order preserved), a successful removal deletes the first
matching entry, keeping the relative order of the remaining entries. -/
def specStep (s : List String) : MOp → Option (List String)
  | .madd n _ => if n ∈ s then none else some (s ++ [n])
  | .mremove n => if n ∈ s then some (s.erase n) else none

/-- Specification-level run from the empty name list. -/
def specRun (ops : List MOp) : Option (List String) :=
  List.foldlM specStep [] ops

theorem codeStep_names (l : List MapItem) (s : List String)
    (hrel : l.map (·.name) = s.map JSVal.str) (op : MOp) :
    (codeStep l op).map (List.map (·.name)) =
      (specStep s op).map (List.map JSVal.str) := by
  cases op with
  | madd n id =>
    by_cases hmem : n ∈ s
    · have hsome : (Maps.select l (.str n)).isSome := by
        rw [Maps.select_isSome_iff, hrel]
        exact List.mem_map_of_mem _ hmem
      obtain ⟨⟨e, he⟩, -⟩ := Maps.add_error_of_taken l (.str n) (.mapObj id) hsome
      have hc : codeStep l (.madd n id) = none := by
        simp only [codeStep, he]
        rfl
      rw [hc]
      simp [specStep, hmem]
    · have hnone : Maps.select l (.str n) = none := by
        rw [Maps.select_eq_none_iff, hrel]
        simp only [List.mem_map]
        rintro ⟨a, ha, hstr⟩
        exact hmem ((str_injective hstr) ▸ ha)
      have hadd := Maps.add_of_fresh l n id hnone
      have hc : codeStep l (.madd n id) =
          some (l ++ [⟨.str n, .mapObj id⟩]) := by
        simp only [codeStep, hadd]
        rfl
      rw [hc]
      simp [specStep, hmem, hrel]
  | mremove n =>
    by_cases hmem : n ∈ s
    · have hfst : (Maps.remove l (.str n)).1 = true := by
        rw [Maps.remove_fst_iff, hrel]
        exact List.mem_map_of_mem _ hmem
      have hc : codeStep l (.mremove n) = some (Maps.remove l (.str n)).2 := by
        simp only [codeStep, hfst]
        rfl
      rw [hc]
      simp only [specStep, if_pos hmem, Option.map_some', Option.some.injEq]
      rw [Maps.remove_names, hrel]
      exact (List.map_erase str_injective s).symm
    · have hfst : (Maps.remove l (.str n)).1 = false := by
        rw [Bool.eq_false_iff]
        intro hcon
        rw [Maps.remove_fst_iff, hrel] at hcon
        simp only [List.mem_map] at hcon
        obtain ⟨a, ha, hstr⟩ := hcon
        exact hmem ((str_injective hstr) ▸ ha)
      have hc : codeStep l (.mremove n) = none := by
        simp only [codeStep, hfst]
        rfl
      rw [hc]
      simp [specStep, hmem]

theorem run_names (ops : List MOp) :
    ∀ (l : List MapItem) (s : List String), l.map (·.name) = s.map JSVal.str →
      (List.foldlM codeStep l ops).map (List.map (·.name)) =
        (List.foldlM specStep s ops).map (List.map JSVal.str) := by
  induction ops with
  | nil =>
    intro l s h
    simpa using h
  | cons op ops ih =>
    intro l s h
    have hstep := codeStep_names l s h op
    cases hc : codeStep l op with
    | none =>
      have hs : specStep s op = none := by
        rw [hc] at hstep
        cases hq : specStep s op
        · rfl
        · rw [hq] at hstep
          simp at hstep
      simp [List.foldlM, hc, hs]
    | some l2 =>
      rw [hc] at hstep
      cases hs : specStep s op with
      | none =>
        rw [hs] at hstep
        simp at hstep
      | some s2 =>
        rw [hs] at hstep
        simp at hstep
        simp only [List.foldlM, hc, hs]
        simpa using ih l2 s2 hstep

/-! Claim theorems. -/

/-- C1, counterexample to the claim as stated: from a state holding one
map, removeAll empties the registry, but the next single-argument addMap
registers the map under the generated name map-1, not map-0. -/
theorem claim1_counterexample :
    (removeAll (addMap Service.initial (.str "a") (.mapObj 0)).2).2.maps = [] ∧
    (addMap (removeAll (addMap Service.initial (.str "a") (.mapObj 0)).2).2
        (.mapObj 1) .undef).2.maps = [⟨.str "map-1", .mapObj 1⟩] ∧
    ("map-1" : String) ≠ "map-0" :=
  ⟨rfl, rfl, by decide⟩

/-- C1, amended: after removeAll() has returned, the registry is empty and
the counter is reset to 0, and the next call to addMap with a single
map-handle argument and no name registers the map under the generated
name map-1 (the counter is incremented before the name is generated, so
the first auto-generated name after a reset is map-1, not map-0). -/
theorem claim1_amended (st : Service) (h : Nat) :
    (removeAll st).2.maps = [] ∧ (removeAll st).2.mapIter = 0 ∧
    (addMap (removeAll st).2 (.mapObj h) .undef).1 =
      .ok ⟨.str "map-1", .mapObj h⟩ ∧
    (addMap (removeAll st).2 (.mapObj h) .undef).2.maps =
      [⟨.str "map-1", .mapObj h⟩] := by
  rw [removeAll_eq st]
  exact ⟨rfl, rfl, rfl, rfl⟩

/-- C2: for every registry state, calling add with a name that is already
registered (select finds a record for it) fails with an error and leaves
the registry contents exactly unchanged. -/
theorem claim2_duplicate_add_fails (l : List MapItem) (name map : JSVal)
    (h : (Maps.select l name).isSome) :
    (∃ e, (Maps.add l name map).1 = .error e) ∧ (Maps.add l name map).2 = l :=
  Maps.add_error_of_taken l name map h

theorem claim2_witness :
    (∃ e, (Maps.add [⟨.str "a", .mapObj 0⟩] (.str "a") (.mapObj 1)).1 =
      .error e) ∧
    (Maps.add [⟨.str "a", .mapObj 0⟩] (.str "a") (.mapObj 1)).2 =
      [⟨.str "a", .mapObj 0⟩] :=
  claim2_duplicate_add_fails _ _ _ (by decide)

/-- C3: for every finite sequence of successful add and remove operations
from the empty registry, list() returns exactly the names of the
currently-registered maps in the order they were added, with the relative
order of remaining entries preserved after each removal: the code-level
run agrees step by step with the specification-level name list, and a
step fails on one side exactly when it fails on the other. -/
theorem claim3_list_reflects_registry (ops : List MOp) :
    (codeRun ops).map (fun l => Maps.list l) =
      (specRun ops).map (List.map JSVal.str) := by
  have h := run_names ops [] [] (by simp)
  simpa [codeRun, specRun, Maps.list] using h

/-- C4: the injected geocode callback resolves with the provider result on
status OK or ZERO_RESULTS; on any other status it rejects with an error
whose status field equals the reported status and which carries a message
field copied from the provider result error_message exactly when the
result is present and its error_message is a truthy (non-empty) string. -/
theorem claim4_geocode_callback (result : Option GeoResult) (status : String) :
    ((status = "OK" ∨ status = "ZERO_RESULTS") →
      geocodeCallback result status = .ok result) ∧
    (status ≠ "OK" → status ≠ "ZERO_RESULTS" →
      ∃ e, geocodeCallback result status = .error e ∧ e.status = status ∧
        ∀ s, e.message = some s ↔
          ∃ r, result = some r ∧ r.error_message = some s ∧ s ≠ "") := by
  constructor
  · intro hok
    unfold geocodeCallback
    rw [if_pos hok]
  · intro h1 h2
    have hcond : ¬(status = "OK" ∨ status = "ZERO_RESULTS") := by
      rintro (h | h)
      · exact h1 h
      · exact h2 h
    unfold geocodeCallback
    rw [if_neg hcond]
    by_cases ht : errorMessageTruthy result = true
    · rw [if_pos ht]
      refine ⟨_, rfl, rfl, ?_⟩
      intro s
      cases result with
      | none => simp [errorMessageTruthy] at ht
      | some r =>
        cases hrm : r.error_message with
        | none => simp [errorMessageTruthy, hrm] at ht
        | some s2 =>
          have hs2 : s2 ≠ "" := by
            simpa [errorMessageTruthy, hrm] using ht
          simp only [Option.bind_eq_bind, Option.some_bind, hrm,
            Option.some.injEq]
          constructor
          · rintro rfl
            exact ⟨r, rfl, hrm, hs2⟩
          · rintro ⟨r2, hr2, hrm2, -⟩
            cases hr2
            rw [hrm] at hrm2
            exact (Option.some.injEq _ _).mp hrm2.symm |>.symm ▸ rfl
    · rw [if_neg ht]
      refine ⟨_, rfl, rfl, ?_⟩
      intro s
      constructor
      · intro hcon
        simp at hcon
      · rintro ⟨r, hr, hrm, hs⟩
        subst hr
        simp [errorMessageTruthy, hrm, hs] at ht

theorem claim4_witness :
    geocodeCallback (some ⟨some "boom", 3⟩) "ZERO_RESULTS" =
      .ok (some ⟨some "boom", 3⟩) ∧
    ∃ e, geocodeCallback (some ⟨some "boom", 3⟩) "OVER_QUERY_LIMIT" =
        .error e ∧ e.status = "OVER_QUERY_LIMIT" ∧
      ∀ s, e.message = some s ↔
        ∃ r, (some (⟨some "boom", 3⟩ : GeoResult)) = some r ∧
          r.error_message = some s ∧ s ≠ "" :=
  ⟨(claim4_geocode_callback _ _).1 (Or.inr rfl),
   (claim4_geocode_callback _ _).2 (by decide) (by decide)⟩

/-- C5: for every pending geocode request, wherever it sits in the queue
when its provider callback fires — requests pushed before it (q1) and
requests pushed after it (q2) may both still be in flight, with distinct
promise identities — the settlement bookkeeping removes exactly that
request, matched by identity: the queue becomes q1 ++ q2, the settled
request is gone, and every other pending request keeps its
multiplicity. -/
theorem claim5_settle_removes_request (q1 q2 : List Nat) (r : Nat)
    (h1 : r ∉ q1) (h2 : r ∉ q2) :
    settleRemove (q1 ++ [r] ++ q2) r = q1 ++ q2 ∧
    r ∉ settleRemove (q1 ++ [r] ++ q2) r ∧
    ∀ x, x ≠ r → (settleRemove (q1 ++ [r] ++ q2) r).count x =
      (q1 ++ q2).count x := by
  have hmem : r ∈ q1 ++ [r] ++ q2 := by simp
  have hs : settleRemove (q1 ++ [r] ++ q2) r = q1 ++ q2 := by
    rw [settleRemove_of_mem _ _ hmem, List.append_assoc,
      List.erase_append_right _ h1, List.singleton_append,
      List.erase_cons_head]
  refine ⟨hs, ?_, fun x _ => by rw [hs]⟩
  rw [hs]
  simp [h1, h2]

theorem claim5_witness :
    settleRemove ([5] ++ [7] ++ [9]) 7 = [5] ++ [9] ∧
    7 ∉ settleRemove ([5] ++ [7] ++ [9]) 7 ∧
    ∀ x, x ≠ 7 → (settleRemove ([5] ++ [7] ++ [9]) 7).count x =
      (([5] : List Nat) ++ [9]).count x :=
  claim5_settle_removes_request [5] [9] 7 (by decide) (by decide)

/-- C6, counterexample to the claim as stated: addMap called with the
empty string as name and a valid map handle registers the empty name
verbatim; no name is auto-generated for it. -/
theorem claim6_counterexample :
    (addMap Service.initial (.str "") (.mapObj 0)).2.maps =
      [⟨.str "", .mapObj 0⟩] := rfl

/-- C6, amended: in every reachable state every registered map name is a
string; but a name is auto-generated (from the counter) only when the
first argument of addMap is itself a map handle: an empty-string name is
registered verbatim and an undefined name fails validation with an error,
neither triggers auto-generation. -/
theorem claim6_amended :
    (∀ st, Reachable st → ∀ r ∈ st.maps, ∃ s, r.name = JSVal.str s) ∧
    (∀ st (h : Nat), Maps.select st.maps (.str "") = none →
      (addMap st (.str "") (.mapObj h)).1 = .ok ⟨.str "", .mapObj h⟩ ∧
      (addMap st (.str "") (.mapObj h)).2.maps =
        st.maps ++ [⟨.str "", .mapObj h⟩]) ∧
    (∀ st (h : Nat), (addMap st .undef (.mapObj h)).1 =
        .error "GMap name must be a string" ∧
      (addMap st .undef (.mapObj h)).2.maps = st.maps) := by
  refine ⟨?_, ?_, ?_⟩
  · intro st hr r hm
    exact (inv_of_reachable st hr r hm).1
  · intro st h hsel
    have hadd := Maps.add_of_fresh st.maps "" h hsel
    constructor
    · show (Maps.add st.maps (.str "") (.mapObj h)).1 = _
      rw [hadd]
    · show (Maps.add st.maps (.str "") (.mapObj h)).2 = _
      rw [hadd]
  · intro st h
    exact ⟨rfl, rfl⟩

theorem claim6_witness :
    (∃ s, (MapItem.mk (.str "map-1") (.mapObj 7)).name = JSVal.str s) ∧
    (addMap Service.initial (.str "") (.mapObj 4)).1 =
      .ok ⟨.str "", .mapObj 4⟩ ∧
    (addMap Service.initial .undef (.mapObj 5)).1 =
      .error "GMap name must be a string" :=
  ⟨claim6_amended.1 _ (Reachable.stepAdd _ (.mapObj 7) .undef Reachable.start)
      ⟨.str "map-1", .mapObj 7⟩ (by decide),
   (claim6_amended.2.1 Service.initial 4 rfl).1,
   (claim6_amended.2.2 Service.initial 5).1⟩

/-- C7: every addMap call increments the counter by exactly one, including
calls that fail validation; and a call whose first argument is a map
handle (the no-name form) generates the name map- followed by the
incremented counter in base 36 and stores exactly that handle. -/
theorem claim7_counter_and_autoname :
    (∀ st name map, (addMap st name map).2.mapIter = st.mapIter + 1) ∧
    (∀ st (h : Nat) (m : JSVal) item, (addMap st (.mapObj h) m).1 = .ok item →
      item.name = .str ("map-" ++ toBase36 (st.mapIter + 1)) ∧
      item.map = .mapObj h) := by
  constructor
  · intro st name map
    rfl
  · intro st h m item hok
    have hthis : (Maps.add st.maps (.str ("map-" ++ toBase36 (st.mapIter + 1)))
        (.mapObj h)).1 = .ok item := hok
    by_cases hsel : (Maps.select st.maps
        (.str ("map-" ++ toBase36 (st.mapIter + 1)))).isSome
    · obtain ⟨⟨e, he⟩, -⟩ := Maps.add_error_of_taken _ _ (.mapObj h) hsel
      rw [he] at hthis
      exact Except.noConfusion hthis
    · have hnone := Option.not_isSome_iff_eq_none.mp hsel
      have hadd := Maps.add_of_fresh st.maps ("map-" ++ toBase36 (st.mapIter + 1))
        h hnone
      rw [hadd] at hthis
      have hitem : item =
          ⟨.str ("map-" ++ toBase36 (st.mapIter + 1)), .mapObj h⟩ := by
        simpa using hthis.symm
      rw [hitem]
      exact ⟨rfl, rfl⟩

theorem claim7_witness :
    (addMap Service.initial (.str "x") (.obj 3)).2.mapIter =
      Service.initial.mapIter + 1 ∧
    ((⟨.str "map-1", .mapObj 9⟩ : MapItem).name =
      .str ("map-" ++ toBase36 (Service.initial.mapIter + 1)) ∧
     (⟨.str "map-1", .mapObj 9⟩ : MapItem).map = .mapObj 9) :=
  ⟨claim7_counter_and_autoname.1 Service.initial (.str "x") (.obj 3),
   claim7_counter_and_autoname.2 Service.initial 9 .undef
     ⟨.str "map-1", .mapObj 9⟩ rfl⟩

/-- C8: selectMap returns null when no record carries the name, and when a
map has been registered under the name by addMap, selectMap returns the
exact handle that was passed to addMap. -/
theorem claim8_selectMap (st : Service) (name : String) (h : Nat) :
    (Maps.select st.maps (.str name) = none → selectMap st name = .null) ∧
    (Maps.select st.maps (.str name) = none →
      selectMap (addMap st (.str name) (.mapObj h)).2 name = .mapObj h) := by
  constructor
  · intro hsel
    unfold selectMap
    rw [hsel]
  · intro hsel
    have hadd := Maps.add_of_fresh st.maps name h hsel
    have hmaps : (addMap st (.str name) (.mapObj h)).2.maps =
        st.maps ++ [⟨.str name, .mapObj h⟩] := by
      show (Maps.add st.maps (.str name) (.mapObj h)).2 = _
      rw [hadd]
    unfold selectMap
    rw [hmaps, Maps.select_append_of_none _ _ _ hsel]
    simp [Maps.select, JSVal.truthy]

theorem claim8_witness :
    selectMap Service.initial "m" = JSVal.null ∧
    selectMap (addMap Service.initial (.str "m") (.mapObj 2)).2 "m" =
      .mapObj 2 :=
  ⟨(claim8_selectMap Service.initial "m" 2).1 rfl,
   (claim8_selectMap Service.initial "m" 2).2 rfl⟩

/-- C9: refreshMap on an unregistered name returns false with a warning
logged and no resize triggered (it returns normally, it does not throw);
on a registered name it triggers the resize signal on the stored external
handle and returns true. -/
theorem claim9_refreshMap (st : Service) (name : String) :
    (Maps.select st.maps (.str name) = none →
      refreshMap st name = ⟨false, true, none⟩) ∧
    (∀ r, Maps.select st.maps (.str name) = some r →
      refreshMap st name = ⟨true, false, some r.map⟩) := by
  constructor
  · intro h
    unfold refreshMap Maps.refresh
    rw [h]
  · intro r h
    unfold refreshMap Maps.refresh
    rw [h]

theorem claim9_witness :
    refreshMap Service.initial "unknown" = ⟨false, true, none⟩ ∧
    refreshMap (addMap Service.initial (.str "a") (.mapObj 1)).2 "a" =
      ⟨true, false, some (.mapObj 1)⟩ :=
  ⟨(claim9_refreshMap Service.initial "unknown").1 rfl,
   (claim9_refreshMap _ "a").2 ⟨.str "a", .mapObj 1⟩ rfl⟩

/-- C10: in every reachable state every stored record has a Google Map
instance in its map field, so the internal truthiness guard of selectMap
can only fail for unregistered names: selectMap never returns null for a
name some record carries. -/
theorem claim10_registered_not_null (st : Service) (hr : Reachable st)
    (name : String) (hreg : ∃ r ∈ st.maps, r.name = JSVal.str name) :
    selectMap st name ≠ JSVal.null := by
  obtain ⟨r, hmem, hname⟩ := hreg
  have hsome : (Maps.select st.maps (.str name)).isSome := by
    rw [Maps.select_isSome_iff]
    exact List.mem_map.mpr ⟨r, hmem, hname⟩
  obtain ⟨r2, hr2⟩ := Option.isSome_iff_exists.mp hsome
  have hmem2 := (Maps.select_eq_some _ _ _ hr2).1
  obtain ⟨-, id, hmapobj⟩ := inv_of_reachable st hr r2 hmem2
  unfold selectMap
  rw [hr2]
  simp [hmapobj, JSVal.truthy]

theorem claim10_witness :
    selectMap (addMap Service.initial (.str "a") (.mapObj 3)).2 "a" ≠
      JSVal.null :=
  claim10_registered_not_null _ (Reachable.stepAdd _ (.str "a") (.mapObj 3)
    Reachable.start) "a" ⟨⟨.str "a", .mapObj 3⟩, by decide, rfl⟩

end GMapSvc
